import Mathlib

/-!
Verification of the 5x7 dot-matrix shield firmware core (`src/main.c`):
the mode-byte decoder (`SetMode`), the escape-coded message decoder
(`DisplayMessage`), the system-tick interrupt handler (scroll countdown and
push-button state machine), and the sleep/wake cursor behaviour
(`GoToSleep`).

Machine bytes are modelled as `Nat` with explicit `% 256` (or masks) where
the C code relies on 8-bit wraparound.  The EEPROM message store is a
`List Nat` read byte-at-a-time; reading past the end of the list is
modelled as reading 0 (the firmware never does this on a well-terminated
store, which is all the claims concern).
-/

namespace DMShield

/-- Draw operations issued to the external drawing backend
(`dmDisplayImage`, `dmPrintChar`, `dmPrintByte` in `dot_matrix.h`). -/
inductive Draw where
  | image (idx : Nat)
  | char (code : Nat)
  | byte (b : Nat)
deriving DecidableEq, Repr

/-- Modelled from the spec: the scrolling-direction constants of
`dot_matrix.h` (not under `src/`); §3 calls them "0 forward-only,
1 bidirectional". Only their distinctness matters here. -/
def FORWARD : Nat := 0

/-- Modelled from the spec: see `FORWARD`. -/
def BIDIRECTIONAL : Nat := 1

/-- Modelled from the spec: the fixed 8-entry scroll-speed conversion table
`spd_conv` of `config.h` (not under `src/`).  §3: "speed index
(1 = slowest … 7 = fastest, looked up in a fixed table)"; only its length
(8) is load-bearing for the claims, the entry values are placeholders. -/
def spd_conv : List Nat := [16, 14, 12, 10, 8, 6, 4, 2]

/-- Modelled from the spec: the fixed 8-entry inter-repetition delay
conversion table `dly_conv` of `config.h` (not under `src/`).  Only its
length (8) is load-bearing for the claims. -/
def dly_conv : List Nat := [1, 2, 4, 8, 16, 32, 64, 128]

/-- The AVR `swap` macro of `main.c`: exchange the two nibbles of a byte. -/
def swap (x : Nat) : Nat := (x >>> 4) ||| ((x <<< 4) % 256)

/-- The four display parameters `SetMode` computes from the mode byte. -/
structure ModeFields where
  inc : Nat
  dir : Nat
  dly : Nat
  spd : Nat
deriving DecidableEq, Repr

/-- Field extraction of `SetMode` (`main.c` lines 121-133):
bit 3 selects the increment (5 or 1), bit 7 the direction, bits 2..0 the
speed index, and `swap(mode) & 0x07` (= bits 6..4) the delay index. -/
def decodeMode (mode : Nat) : ModeFields :=
  { inc := if mode &&& 0x08 ≠ 0 then 5 else 1
    dir := if mode &&& 0x80 ≠ 0 then BIDIRECTIONAL else FORWARD
    dly := swap mode &&& 0x07
    spd := mode &&& 0x07 }

/-- `SetMode`'s externally visible outputs: the `dmSetScrolling` arguments
(increment, direction, looked-up delay) and the new `scroll_speed`. -/
def SetMode (mode : Nat) : Nat × Nat × Nat × Nat :=
  let f := decodeMode mode
  (f.inc, f.dir, dly_conv.getD f.dly 0, spd_conv.getD f.spd 0)

/-- Modelled from the spec: re-encode the four decoded fields into a mode
byte following §3's bit layout word for word — bit 7 = direction,
bits 6-4 = delay index, bit 3 = increment selector (set ↔ step 5),
bits 2-0 = speed index.  Used only to state the round-trip claim. -/
def encodeMode (f : ModeFields) : Nat :=
  (if f.dir = BIDIRECTIONAL then 128 else 0) + 16 * f.dly +
    (if f.inc = 5 then 8 else 0) + f.spd

/-- The inner direct-mode loop of `DisplayMessage` (`main.c` lines 176-182):
every byte up to the next `0xFF` is printed raw via `dmPrintByte`; the
closing `0xFF` is consumed.  Returns the draws and the remaining stream.
An unterminated direct mode (no closing `0xFF` before the end of the
store) is modelled as stopping at the end of the list. -/
def directLoop : List Nat → List Draw × List Nat
  | [] => ([], [])
  | b :: rest =>
    if b = 0xFF then ([], rest)
    else (Draw.byte b :: (directLoop rest).1, (directLoop rest).2)

/-- One unit of the `DisplayMessage` content loop (`main.c` lines 167-191):
given the current content byte `ch` (≠ 0, already read) and the remaining
stream, produce this unit's draws and the stream position after it.
Byte values: 126 = `'~'`, 94 = `'^'`, 65 = `'A'`.  `ch -= 'A'` and
`ch += 63` are 8-bit operations, hence `(b + 191) % 256` (= b - 65 mod 256)
and `(b + 63) % 256`.  `ac` is the animation-table size `ANIMATION_COUNT`
(from `animations.h`, not under `src/`, kept as a parameter).  Escape
arguments read past the end of the store are modelled as reading 0. -/
def unitStep (ac ch : Nat) (rest : List Nat) : List Draw × List Nat :=
  if ch = 126 then
    match rest with
    | [] => (if 191 < ac then [Draw.image 191] else [], [])
    | b :: r =>
      (if b ≠ 126 ∧ (b + 191) % 256 < ac then [Draw.image ((b + 191) % 256)] else [], r)
  else if ch = 0xFF then
    directLoop rest
  else if ch = 94 then
    match rest with
    | [] => ([Draw.char 63], [])
    | b :: r => (if b = 94 then [Draw.char 94] else [Draw.char ((b + 63) % 256)], r)
  else ([Draw.char ch], rest)

/-- The content loop of `DisplayMessage` (`main.c` lines 165-194): read a
byte; stop when it is 0 (terminator consumed); otherwise decode one unit,
then read the next byte — if it is non-zero print one narrow-space column
(`dmPrintByte(0)`) and continue with it, else stop.  Returns the draws and
the remaining stream after the terminator. -/
def msgLoop (ac : Nat) (l : List Nat) : List Draw × List Nat :=
  match l with
  | [] => ([], [])
  | ch :: rest =>
    if ch = 0 then ([], rest)
    else
      match hu : (unitStep ac ch rest).2 with
      | [] => ((unitStep ac ch rest).1, [])
      | ch2 :: r2 =>
        if ch2 = 0 then ((unitStep ac ch rest).1, r2)
        else
          ((unitStep ac ch rest).1 ++ Draw.byte 0 :: (msgLoop ac (ch2 :: r2)).1,
            (msgLoop ac (ch2 :: r2)).2)
termination_by l.length
decreasing_by
  all_goals
    have hd : ∀ m : List Nat, (directLoop m).2.length ≤ m.length := by
      intro m
      induction m with
      | nil => simp [directLoop]
      | cons b r ih =>
        by_cases hb : b = 0xFF <;> simp [directLoop, hb] <;> omega
    have hu2 : ∀ (a c : Nat) (r : List Nat), (unitStep a c r).2.length ≤ r.length := by
      intro a c r
      by_cases h1 : c = 126
      · cases r <;> simp [unitStep, h1]
      · by_cases h2 : c = 0xFF
        · simpa [unitStep, h1, h2] using hd r
        · by_cases h3 : c = 94
          · cases r <;> simp [unitStep, h1, h2, h3]
          · simp [unitStep, h1, h2, h3]
    rw [← hu]
    exact Nat.lt_of_le_of_lt (hu2 _ _ _) (by simp only [List.length_cons]; omega)

/-- Byte-at-a-time EEPROM accessor (`eeprom_read_byte`): the store is a
finite byte list, reads past its end are modelled as 0. -/
def eeRead (store : List Nat) (adr : Nat) : Nat := store.getD adr 0

/-- The result of one `DisplayMessage` call: the mode fields applied via
`SetMode`, the draw operations issued, and the returned next-message
address. -/
structure PlayResult where
  fields : ModeFields
  draws : List Draw
  next : Nat
deriving DecidableEq, Repr

/-- `DisplayMessage` (`main.c` lines 157-198): read the mode byte at `adr`
and apply `SetMode`, decode the content bytes from `adr + 1` until the
terminator, then peek the byte just past the terminator: if non-zero
return its address (the next message), else return the address of the very
first message (0, i.e. `messages`). -/
def DisplayMessage (ac : Nat) (store : List Nat) (adr : Nat) : PlayResult :=
  let content := store.drop (adr + 1)
  let r := msgLoop ac content
  let endAdr := adr + 1 + (content.length - r.2.length)
  { fields := decodeMode (eeRead store adr)
    draws := r.1
    next := if eeRead store endAdr ≠ 0 then endAdr else 0 }

/-- `GoToSleep` (`main.c` lines 208-221), viewed through its effect on the
playback cursor `msg_ptr`: whatever the cursor was before sleeping
(`prior`), after wake the firmware executes
`msg_ptr = DisplayMessage((uint8_t*) messages)`, i.e. it plays the store's
first message (address 0) and stores that call's returned address.  The
hardware steps (display clear, delays, pin-change interrupt arming, power
down) are external and not modelled. -/
def GoToSleepNext (ac : Nat) (store : List Nat) (prior : Nat) : Nat :=
  (DisplayMessage ac store 0).next

/-- Modelled from the spec: the push-button event constant `PB_PRESS` of
`config.h` (not under `src/`).  §3/§4.3 fix the abstract states
{idle/acknowledged, pressed, released, long-pressed}; `main.c`'s bit
operations then force `PB_RELEASE = PB_PRESS &&& ~(PB_PRESS ||| PB_ACK)
= 0` ("not pressed, previously pressed → clear to released"), `PB_PRESS`
to be a bit contained in `PB_LONGPRESS` (otherwise holding the button
after a long press would restart a fresh press every tick),
`PB_LONGPRESS ≠ PB_PRESS`, and `PB_ACK` a bit outside `PB_LONGPRESS`
(otherwise acknowledging a long press and releasing would fabricate a
release event).  The smallest assignment satisfying these constraints is
used; the claims depend only on the constraints. -/
def PB_PRESS : Nat := 1

/-- Modelled from the spec: see `PB_PRESS`. -/
def PB_LONGPRESS : Nat := 3

/-- Modelled from the spec: see `PB_PRESS`. -/
def PB_RELEASE : Nat := 0

/-- Modelled from the spec: see `PB_PRESS`. -/
def PB_ACK : Nat := 4

/-- Push-button phase of the system-tick ISR (`main.c` lines 290-313):
`pressed` says whether the masked, inverted pin sample `temp` is non-zero;
`b` and `t` are the `button` byte and `pb_timer`; `dly` is the `config.h`
constant `PB_LONGPRESS_DELAY`, kept as a parameter.  `255 ^^^ x` is the
8-bit complement `~x`. -/
def buttonStep (dly : Nat) (pressed : Bool) (b t : Nat) : Nat × Nat :=
  if ¬ pressed then
    if b &&& PB_PRESS ≠ 0 then (b &&& (255 ^^^ (PB_PRESS ||| PB_ACK)), t)
    else (b, t)
  else
    if b &&& PB_PRESS = 0 then (PB_PRESS, dly)
    else if b = PB_PRESS then
      if t = 0 then (PB_LONGPRESS, t) else (b, t - 1)
    else (b, t)

/-- The mutable state the system-tick ISR touches: the static scroll
countdown `scroll_timer`, the global `button` event byte and the static
push-button timer `pb_timer`. -/
structure TickState where
  scroll_timer : Nat
  button : Nat
  pb_timer : Nat
deriving DecidableEq, Repr

/-- The system-tick ISR `ISR(TIMER0_COMPB_vect)` (`main.c` lines 272-315)
minus the compare-register re-arm (hardware): decrement the scroll
countdown if non-zero, else reset it to `speed` (the global
`scroll_speed`) and issue one scroll step (`dmScroll()`, reported as the
returned Bool); then run the push-button sampler. -/
def sysTick (speed dly : Nat) (pressed : Bool) (s : TickState) : TickState × Bool :=
  let sc := if s.scroll_timer ≠ 0 then (s.scroll_timer - 1, false) else (speed, true)
  let pb := buttonStep dly pressed s.button s.pb_timer
  ({ scroll_timer := sc.1, button := pb.1, pb_timer := pb.2 }, sc.2)

/-- Iterated system ticks over a list of button samples. -/
def runTicks (speed dly : Nat) (s : TickState) : List Bool → TickState
  | [] => s
  | p :: ps => runTicks speed dly (sysTick speed dly p s).1 ps

/-- The sequence of `button` values observed after each tick of a sample
list. -/
def buttonTrace (speed dly : Nat) (s : TickState) : List Bool → List Nat
  | [] => []
  | p :: ps =>
    ((sysTick speed dly p s).1).button ::
      buttonTrace speed dly (sysTick speed dly p s).1 ps

/-- How often the button byte changes to the event value `e` along a trace
of button values whose predecessor is `b0`: the number of times event `e`
is issued. -/
def issuedCount (e : Nat) : Nat → List Nat → Nat
  | _, [] => 0
  | b0, b :: bs => (if b = e ∧ b0 ≠ e then 1 else 0) + issuedCount e b bs

/-- State after `k` system ticks with the button never pressed (used for
the scroll-cadence analysis; `dly` is irrelevant without presses and fixed
to 0). -/
def tickIter (speed : Nat) (s : TickState) : Nat → TickState
  | 0 => s
  | k + 1 => (sysTick speed 0 false (tickIter speed s k)).1

/-- Whether the tick applied to `tickIter speed s k` issues a scroll step
(`dmScroll()`). -/
def scrollFires (speed : Nat) (s : TickState) (k : Nat) : Bool :=
  (sysTick speed 0 false (tickIter speed s k)).2

/-- Well-formed content-byte sequences: a concatenation of complete units
following §3's encoding — a plain byte, `'~'` plus one argument byte,
`'^'` plus one argument byte, or a `0xFF`-delimited direct-mode run.
Escape argument bytes are non-zero (a zero there would be swallowed as the
escape's argument instead of terminating the message). -/
inductive UnitSeq : List Nat → Prop where
  | nil : UnitSeq []
  | plain {b : Nat} {rest : List Nat} :
      b ≠ 0 → b ≠ 126 → b ≠ 94 → b ≠ 0xFF → UnitSeq rest → UnitSeq (b :: rest)
  | anim {b : Nat} {rest : List Nat} :
      b ≠ 0 → UnitSeq rest → UnitSeq (126 :: b :: rest)
  | special {b : Nat} {rest : List Nat} :
      b ≠ 0 → UnitSeq rest → UnitSeq (94 :: b :: rest)
  | direct {inner rest : List Nat} :
      0xFF ∉ inner → UnitSeq rest → UnitSeq (0xFF :: inner ++ 0xFF :: rest)

/-- The draws a run of plain content bytes contributes when it follows an
earlier unit: one narrow space, then the bytes' characters separated by
narrow spaces (nothing when the run is empty). -/
def interDraws (body : List Nat) : List Draw :=
  if body = [] then [] else
    Draw.byte 0 :: List.intersperse (Draw.byte 0) (body.map Draw.char)

/-- Whether a draw operation is a decoded character (`dmPrintChar`). -/
def isCharDraw : Draw → Bool
  | Draw.char _ => true
  | _ => false

/-- Whether a draw operation is a narrow-space column (`dmPrintByte(0)`). -/
def isSpaceDraw : Draw → Bool
  | Draw.byte 0 => true
  | _ => false

/-! ### Helper lemmas: the message decoder -/

theorem msgLoop_nil (ac : Nat) : msgLoop ac [] = ([], []) := by
  rw [msgLoop]

theorem msgLoop_zero (ac : Nat) (rest : List Nat) :
    msgLoop ac (0 :: rest) = ([], rest) := by
  rw [msgLoop]
  simp

theorem msgLoop_cons_end (ac ch : Nat) (rest : List Nat) (d : List Draw)
    (hch : ch ≠ 0) (hu : unitStep ac ch rest = (d, [])) :
    msgLoop ac (ch :: rest) = (d, []) := by
  rw [msgLoop, if_neg hch]
  split
  · simp [hu]
  · rename_i ch2 r2 heq
    rw [hu] at heq
    simp at heq

theorem msgLoop_cons_term (ac ch : Nat) (rest r2 : List Nat) (d : List Draw)
    (hch : ch ≠ 0) (hu : unitStep ac ch rest = (d, 0 :: r2)) :
    msgLoop ac (ch :: rest) = (d, r2) := by
  rw [msgLoop, if_neg hch]
  split
  · rename_i heq
    rw [hu] at heq
    simp at heq
  · rename_i ch2 r2' heq
    rw [hu] at heq
    simp only [List.cons.injEq] at heq
    obtain ⟨h1, h2⟩ := heq
    subst h2
    rw [if_pos h1.symm]
    simp [hu]

theorem msgLoop_cons_go (ac ch c : Nat) (rest r2 : List Nat) (d : List Draw)
    (hch : ch ≠ 0) (hc : c ≠ 0) (hu : unitStep ac ch rest = (d, c :: r2)) :
    msgLoop ac (ch :: rest) =
      (d ++ Draw.byte 0 :: (msgLoop ac (c :: r2)).1, (msgLoop ac (c :: r2)).2) := by
  rw [msgLoop, if_neg hch]
  split
  · rename_i heq
    rw [hu] at heq
    simp at heq
  · rename_i ch2 r2' heq
    rw [hu] at heq
    simp only [List.cons.injEq] at heq
    obtain ⟨h1, h2⟩ := heq
    subst h1
    subst h2
    rw [if_neg hc]
    simp [hu]

theorem unitStep_plain (ac ch : Nat) (rest : List Nat)
    (h1 : ch ≠ 126) (h2 : ch ≠ 0xFF) (h3 : ch ≠ 94) :
    unitStep ac ch rest = ([Draw.char ch], rest) := by
  simp [unitStep, h1, h2, h3]

theorem directLoop_run (inner rest : List Nat) (h : 0xFF ∉ inner) :
    directLoop (inner ++ 0xFF :: rest) = (inner.map Draw.byte, rest) := by
  induction inner with
  | nil => simp [directLoop]
  | cons b t ih =>
    simp only [List.mem_cons, not_or] at h
    simp [directLoop, (Ne.symm h.1 : b ≠ 0xFF), ih h.2]

theorem msgLoop_plain (ac : Nat) (l : List Nat)
    (hl : ∀ b ∈ l, b ≠ 0 ∧ b ≠ 126 ∧ b ≠ 94 ∧ b ≠ 0xFF) (after : List Nat) :
    msgLoop ac (l ++ 0 :: after) =
      (List.intersperse (Draw.byte 0) (l.map Draw.char), after) := by
  induction l with
  | nil => simpa using msgLoop_zero ac after
  | cons b t ih =>
    obtain ⟨hb0, hb126, hb94, hbff⟩ := hl b (by simp)
    have ht : ∀ x ∈ t, x ≠ 0 ∧ x ≠ 126 ∧ x ≠ 94 ∧ x ≠ 0xFF :=
      fun x hx => hl x (by simp [hx])
    have hu : unitStep ac b (t ++ 0 :: after) = ([Draw.char b], t ++ 0 :: after) :=
      unitStep_plain ac b (t ++ 0 :: after) hb126 hbff hb94
    cases t with
    | nil =>
      have := msgLoop_cons_term ac b ([] ++ 0 :: after) after [Draw.char b] hb0
        (by simpa using hu)
      simpa [List.intersperse_singleton] using this
    | cons c t2 =>
      have hc0 : c ≠ 0 := (ht c (by simp)).1
      have hgo := msgLoop_cons_go ac b c ((c :: t2) ++ 0 :: after) (t2 ++ 0 :: after)
        [Draw.char b] hb0 hc0 (by simpa using hu)
      have ihv := ih ht
      rw [List.cons_append] at ihv
      rw [List.cons_append, hgo, ihv]
      simp [List.intersperse_cons_cons]

theorem msgLoop_unit_plain (ac ch : Nat) (tail body after : List Nat) (d : List Draw)
    (hch : ch ≠ 0)
    (hu : unitStep ac ch tail = (d, body ++ 0 :: after))
    (hbody : ∀ b ∈ body, b ≠ 0 ∧ b ≠ 126 ∧ b ≠ 94 ∧ b ≠ 0xFF) :
    msgLoop ac (ch :: tail) = (d ++ interDraws body, after) := by
  cases body with
  | nil =>
    have := msgLoop_cons_term ac ch tail after d hch (by simpa using hu)
    simpa [interDraws] using this
  | cons c t =>
    have hc0 : c ≠ 0 := (hbody c (by simp)).1
    have hgo := msgLoop_cons_go ac ch c tail (t ++ 0 :: after) d hch hc0
      (by simpa using hu)
    rw [hgo, show c :: (t ++ 0 :: after) = (c :: t) ++ 0 :: after from rfl,
      msgLoop_plain ac (c :: t) hbody after]
    simp [interDraws]

theorem unitSeq_head_ne_zero {c : Nat} {t : List Nat} (h : UnitSeq (c :: t)) :
    c ≠ 0 := by
  cases h with
  | plain hb _ _ _ _ => exact hb
  | anim _ _ => simp
  | special _ _ => simp
  | direct _ _ => simp

theorem msgLoop_after_unit (ac ch : Nat) (tail after : List Nat) (d : List Draw)
    (content : List Nat)
    (hch : ch ≠ 0)
    (hu : unitStep ac ch tail = (d, content ++ 0 :: after))
    (hS : UnitSeq content)
    (ih : ∀ a : List Nat, (msgLoop ac (content ++ 0 :: a)).2 = a) :
    (msgLoop ac (ch :: tail)).2 = after := by
  cases content with
  | nil =>
    rw [msgLoop_cons_term ac ch tail after d hch (by simpa using hu)]
  | cons c t =>
    have hc0 : c ≠ 0 := unitSeq_head_ne_zero hS
    rw [msgLoop_cons_go ac ch c tail (t ++ 0 :: after) d hch hc0 (by simpa using hu)]
    exact ih after

theorem msgLoop_unitSeq_snd (ac : Nat) {content : List Nat} (hS : UnitSeq content) :
    ∀ after : List Nat, (msgLoop ac (content ++ 0 :: after)).2 = after := by
  induction hS with
  | nil =>
    intro after
    simpa using congrArg Prod.snd (msgLoop_zero ac after)
  | plain hb0 hb126 hb94 hbff hrest ih =>
    intro after
    rename_i b rest
    exact msgLoop_after_unit ac b (rest ++ 0 :: after) after [Draw.char b] rest hb0
      (unitStep_plain ac b (rest ++ 0 :: after) hb126 hbff hb94) hrest ih
  | anim hb0 hrest ih =>
    intro after
    rename_i b rest
    exact msgLoop_after_unit ac 126 (b :: (rest ++ 0 :: after)) after
      (if b ≠ 126 ∧ (b + 191) % 256 < ac then [Draw.image ((b + 191) % 256)] else [])
      rest (by simp) (by simp [unitStep]) hrest ih
  | special hb0 hrest ih =>
    intro after
    rename_i b rest
    exact msgLoop_after_unit ac 94 (b :: (rest ++ 0 :: after)) after
      (if b = 94 then [Draw.char 94] else [Draw.char ((b + 63) % 256)])
      rest (by simp) (by simp [unitStep]) hrest ih
  | direct hin hrest ih =>
    intro after
    rename_i inner rest
    have h2 := msgLoop_after_unit ac 0xFF (inner ++ 0xFF :: (rest ++ 0 :: after)) after
      (inner.map Draw.byte) rest (by simp)
      (by simpa [unitStep] using directLoop_run inner (rest ++ 0 :: after) hin) hrest ih
    simpa [List.cons_append, List.append_assoc] using h2

theorem getD_drop_add (l : List Nat) (n i : Nat) :
    (l.drop n).getD i 0 = l.getD (n + i) 0 := by
  induction l generalizing n with
  | nil => simp
  | cons a t ih =>
    cases n with
    | zero => simp
    | succ m => simpa [Nat.succ_add] using ih m

theorem DisplayMessage_next (ac adr : Nat) (store content after : List Nat)
    (hdrop : store.drop (adr + 1) = content ++ 0 :: after)
    (hc : UnitSeq content) :
    (DisplayMessage ac store adr).next =
      if after.headD 0 ≠ 0 then adr + 2 + content.length else 0 := by
  have hsnd := msgLoop_unitSeq_snd ac hc after
  have hpeek : eeRead store (adr + 1 + (content.length + 1)) = after.headD 0 := by
    unfold eeRead
    rw [← getD_drop_add store (adr + 1) (content.length + 1), hdrop,
      List.getD_append_right _ _ _ _ (by simp)]
    have h1 : content.length + 1 - content.length = 1 := by omega
    rw [h1]
    cases after <;> simp
  have harith : (content ++ 0 :: after).length - after.length = content.length + 1 := by
    simp only [List.length_append, List.length_cons]
    omega
  simp only [DisplayMessage]
  rw [hdrop, hsnd, harith, hpeek]
  have h2 : adr + 1 + (content.length + 1) = adr + 2 + content.length := by omega
  rw [h2]

theorem intersperse_countP_char (l : List Nat) :
    (List.intersperse (Draw.byte 0) (l.map Draw.char)).countP isCharDraw = l.length := by
  induction l with
  | nil => simp
  | cons a t ih =>
    cases t with
    | nil => simp [isCharDraw]
    | cons b t2 =>
      simp only [List.map_cons, List.intersperse_cons_cons, List.countP_cons] at ih ⊢
      simp only [isCharDraw] at ih ⊢
      simp at ih ⊢
      omega

theorem intersperse_countP_space (l : List Nat) :
    (List.intersperse (Draw.byte 0) (l.map Draw.char)).countP isSpaceDraw =
      l.length - 1 := by
  induction l with
  | nil => simp
  | cons a t ih =>
    cases t with
    | nil => simp [isSpaceDraw]
    | cons b t2 =>
      simp only [List.map_cons, List.intersperse_cons_cons, List.countP_cons] at ih ⊢
      simp only [isSpaceDraw] at ih ⊢
      simp at ih ⊢
      omega

/-! ### The claims about the message decoder and mode decoder -/

/-- C2: for every well-formed null-terminated message at cursor `adr`,
`DisplayMessage` consumes the mode byte, the content bytes and the zero
terminator, and returns the address immediately following the terminator
when the byte stored there is non-zero, and the address 0 of the very
first message of the store (wraparound) when it is zero. -/
theorem c2_next_message_address (ac adr : Nat) (store content after : List Nat)
    (hdrop : store.drop (adr + 1) = content ++ 0 :: after)
    (hc : UnitSeq content) :
    (DisplayMessage ac store adr).next =
      if after.headD 0 ≠ 0 then adr + 2 + content.length else 0 :=
  DisplayMessage_next ac adr store content after hdrop hc

/-- Witness for C2 at the store `[modeByte = 5, 'A', 0, 0]`: playing the
first message returns the first message's address 0 again. -/
theorem c2_witness : (DisplayMessage 4 [5, 65, 0, 0] 0).next = 0 := by
  have h := c2_next_message_address 4 0 [5, 65, 0, 0] [65] [0] (by rfl)
    (UnitSeq.plain (by decide) (by decide) (by decide) (by decide) UnitSeq.nil)
  simpa using h

/-- C4 (amended): `'^'` followed by a byte `X ≠ '^'` draws exactly one
character, whose code is the 8-bit value `(X + 63) % 256` (this equals the
claim's `X + 63` whenever that sum fits in a byte, i.e. X ≤ 192), and
`'^' '^'` draws exactly one literal `'^'` character, not two draws. -/
theorem c4_caret_escape (ac X : Nat) (after : List Nat)
    (hX : X < 256) (hX0 : X ≠ 0) (hXc : X ≠ 94) :
    msgLoop ac (94 :: X :: 0 :: after) = ([Draw.char ((X + 63) % 256)], after) ∧
    msgLoop ac (94 :: 94 :: 0 :: after) = ([Draw.char 94], after) := by
  constructor
  · exact msgLoop_cons_term ac 94 (X :: 0 :: after) after _ (by simp)
      (by simp [unitStep, hXc])
  · exact msgLoop_cons_term ac 94 (94 :: 0 :: after) after _ (by simp)
      (by simp [unitStep])

/-- Counterexample to C4 as frozen: for the byte X = 200 (≠ `'^'`), the
code adds 63 in 8-bit arithmetic and draws the character with code
(200 + 63) mod 256 = 7, not the claimed code 200 + 63 = 263. -/
theorem c4_counterexample :
    msgLoop 4 [94, 200, 0] = ([Draw.char 7], []) ∧
    Draw.char 7 ≠ Draw.char (200 + 63) := by
  constructor
  · exact msgLoop_cons_term 4 94 [200, 0] [] [Draw.char 7] (by decide) (by decide)
  · decide

/-- Witness for C4 at X = 66 (`'B'`): one draw of code 129 = 66 + 63. -/
theorem c4_witness :
    msgLoop 4 [94, 66, 0] = ([Draw.char 129], []) ∧
    msgLoop 4 [94, 94, 0] = ([Draw.char 94], []) := by
  have h := c4_caret_escape 4 66 [] (by decide) (by decide) (by decide)
  norm_num at h
  exact h

/-- C5: `'~'` followed by an uppercase letter X with X - 'A' within the
animation table draws exactly that animation; `'~'` followed by a byte
whose 8-bit index X - 'A' falls outside the table draws nothing;
`'~' '~'` draws nothing; and in every case decoding continues with the
following units and reaches the terminator — the escape anomaly never
stops playback. -/
theorem c5_anim_escape (ac X : Nat) (body after : List Nat)
    (hX : X < 256) (hX0 : X ≠ 0)
    (hbody : ∀ b ∈ body, b ≠ 0 ∧ b ≠ 126 ∧ b ≠ 94 ∧ b ≠ 0xFF) :
    (65 ≤ X → X ≤ 90 → X - 65 < ac →
      msgLoop ac (126 :: X :: (body ++ 0 :: after)) =
        (Draw.image (X - 65) :: interDraws body, after)) ∧
    (ac ≤ (X + 191) % 256 →
      msgLoop ac (126 :: X :: (body ++ 0 :: after)) = (interDraws body, after)) ∧
    (X = 126 →
      msgLoop ac (126 :: X :: (body ++ 0 :: after)) = (interDraws body, after)) := by
  refine ⟨?_, ?_, ?_⟩
  · intro h65 h90 hlt
    have hmod : (X + 191) % 256 = X - 65 := by omega
    have hne : X ≠ 126 := by omega
    have hu : unitStep ac 126 (X :: (body ++ 0 :: after)) =
        ([Draw.image (X - 65)], body ++ 0 :: after) := by
      simp [unitStep, hne, hmod, hlt]
    simpa using msgLoop_unit_plain ac 126 _ body after [Draw.image (X - 65)]
      (by simp) hu hbody
  · intro hge
    have hno : ¬ (X ≠ 126 ∧ (X + 191) % 256 < ac) := by
      rintro ⟨-, hlt⟩
      omega
    have hu : unitStep ac 126 (X :: (body ++ 0 :: after)) = ([], body ++ 0 :: after) := by
      simp [unitStep, hno]
    simpa using msgLoop_unit_plain ac 126 _ body after [] (by simp) hu hbody
  · intro h126
    subst h126
    have hu : unitStep ac 126 (126 :: (body ++ 0 :: after)) = ([], body ++ 0 :: after) := by
      simp [unitStep]
    simpa using msgLoop_unit_plain ac 126 _ body after [] (by simp) hu hbody

/-- Witness for C5: `'~' 'B'` with table size 3 draws animation 1 and the
following character still plays; `'~' 'a'` (index 32, out of range) and
`'~' '~'` draw nothing and still reach the terminator. -/
theorem c5_witness :
    msgLoop 3 [126, 66, 72, 0] = ([Draw.image 1, Draw.byte 0, Draw.char 72], []) ∧
    msgLoop 3 [126, 97, 0] = ([], []) ∧
    msgLoop 3 [126, 126, 0] = ([], []) := by
  refine ⟨?_, ?_, ?_⟩
  · have h := (c5_anim_escape 3 66 [72] [] (by decide) (by decide) (by decide)).1
      (by decide) (by decide) (by decide)
    simpa [interDraws] using h
  · have h := (c5_anim_escape 3 97 [] [] (by decide) (by decide) (by decide)).2.1
      (by decide)
    simpa [interDraws] using h
  · have h := (c5_anim_escape 3 126 [] [] (by decide) (by decide) (by decide)).2.2 rfl
    simpa [interDraws] using h

/-- C6: `0xFF` enters direct mode — every interior byte up to but
excluding the next `0xFF` is written as one raw display column with no
escape interpretation (even interior bytes equal to `'~'`, `'^'` or 0; a
zero inside direct mode does not terminate the message) — and the closing
`0xFF` exits direct mode, after which decoding continues normally. -/
theorem c6_direct_mode (ac : Nat) (inner body after : List Nat)
    (hin : 0xFF ∉ inner)
    (hbody : ∀ b ∈ body, b ≠ 0 ∧ b ≠ 126 ∧ b ≠ 94 ∧ b ≠ 0xFF) :
    msgLoop ac (0xFF :: (inner ++ 0xFF :: (body ++ 0 :: after))) =
      (inner.map Draw.byte ++ interDraws body, after) := by
  refine msgLoop_unit_plain ac 0xFF _ body after (inner.map Draw.byte) (by simp) ?_ hbody
  simpa [unitStep] using directLoop_run inner (body ++ 0 :: after) hin

/-- Witness for C6: interior bytes `'~'`, `'^'` and 0 are all drawn raw,
and decoding continues past the closing `0xFF`. -/
theorem c6_witness :
    msgLoop 7 [255, 126, 94, 0, 255, 65, 0] =
      ([Draw.byte 126, Draw.byte 94, Draw.byte 0, Draw.byte 0, Draw.char 65], []) := by
  have h := c6_direct_mode 7 [126, 94, 0] [65] [] (by decide) (by decide)
  simpa [interDraws] using h

/-- C7: decoding a message whose content bytes contain no escape
characters and no embedded zero draws the characters in order with exactly
one narrow-space column (raw byte 0) between consecutive units and no
trailing space: for `n` content bytes, exactly `n` character draws and
exactly `n - 1` space draws, interleaved. -/
theorem c7_inter_unit_spacing (ac : Nat) (l after : List Nat)
    (hl : ∀ b ∈ l, b ≠ 0 ∧ b ≠ 126 ∧ b ≠ 94 ∧ b ≠ 0xFF) :
    msgLoop ac (l ++ 0 :: after) =
      (List.intersperse (Draw.byte 0) (l.map Draw.char), after) ∧
    (msgLoop ac (l ++ 0 :: after)).1.countP isCharDraw = l.length ∧
    (msgLoop ac (l ++ 0 :: after)).1.countP isSpaceDraw = l.length - 1 := by
  have h := msgLoop_plain ac l hl after
  refine ⟨h, ?_, ?_⟩
  · rw [h]
    exact intersperse_countP_char l
  · rw [h]
    exact intersperse_countP_space l

/-- Witness for C7 on the two-byte content `"HI"`: two character draws,
one interior space, no trailing space. -/
theorem c7_witness :
    msgLoop 4 [72, 73, 0] = ([Draw.char 72, Draw.byte 0, Draw.char 73], []) ∧
    (msgLoop 4 [72, 73, 0]).1.countP isCharDraw = 2 ∧
    (msgLoop 4 [72, 73, 0]).1.countP isSpaceDraw = 1 := by
  have h := c7_inter_unit_spacing 4 [72, 73] [] (by decide)
  simpa using h

/-- C9 (amended): `GoToSleep` discards the prior playback cursor: after
the wake event it plays the store's very first message (address 0)
regardless of what the cursor was before sleeping, and the cursor when it
returns is that call's result — the address following the first message's
terminator when another message follows, and the first message itself
otherwise. -/
theorem c9_wake_restart (ac prior prior2 : Nat) (store content after : List Nat)
    (hdrop : store.drop 1 = content ++ 0 :: after)
    (hc : UnitSeq content) :
    GoToSleepNext ac store prior = GoToSleepNext ac store prior2 ∧
    GoToSleepNext ac store prior =
      (if after.headD 0 ≠ 0 then content.length + 2 else 0) := by
  refine ⟨rfl, ?_⟩
  unfold GoToSleepNext
  have h := DisplayMessage_next ac 0 store content after (by simpa using hdrop) hc
  have h2 : 0 + 2 + content.length = content.length + 2 := by omega
  rw [h, h2]

/-- Counterexample to C9 as frozen: on a store holding two messages the
cursor after wake is 3 — the second message's address — not the first
message's address 0 (the prior cursor, here 6, is indeed discarded). -/
theorem c9_counterexample :
    GoToSleepNext 4 [1, 65, 0, 1, 66, 0, 0] 6 = 3 ∧ (3 : Nat) ≠ 0 := by
  constructor
  · have h := DisplayMessage_next 4 0 [1, 65, 0, 1, 66, 0, 0] [65] [1, 66, 0, 0]
      (by rfl) (UnitSeq.plain (by decide) (by decide) (by decide) (by decide) UnitSeq.nil)
    unfold GoToSleepNext
    simpa using h
  · decide

/-- Witness for C9 on a single-message store: the cursor after wake wraps
to the first message, address 0, for an arbitrary prior cursor 9. -/
theorem c9_witness : GoToSleepNext 4 [1, 65, 0, 0] 9 = 0 := by
  have h := c9_wake_restart 4 9 2 [1, 65, 0, 0] [65] [0] (by rfl)
    (UnitSeq.plain (by decide) (by decide) (by decide) (by decide) UnitSeq.nil)
  simpa using h.2

set_option maxRecDepth 8192 in
/-- C3: the values {increment, direction, delay index, speed index}
decoded by `SetMode` are pure functions of the mode byte's bit fields
(bit 7 → direction, bits 6-4 → delay index, bit 3 → increment 1 or 5,
bits 2-0 → speed index), and re-encoding the four fields reproduces the
original mode byte. -/
theorem c3_mode_roundtrip (m : Fin 256) : encodeMode (decodeMode m.val) = m.val := by
  revert m
  decide

/-- C10: the speed and delay indices `SetMode` computes are masked with
0x07, hence always in 0..7, so every lookup into the 8-entry `spd_conv`
and `dly_conv` tables is in bounds, for every mode byte value. -/
theorem c10_setmode_index_bounds (m : Nat) :
    (decodeMode m).spd < spd_conv.length ∧ (decodeMode m).dly < dly_conv.length := by
  constructor
  · have h := Nat.and_le_right (n := m) (m := 7)
    simp only [decodeMode, spd_conv, List.length_cons, List.length_nil]
    omega
  · have h := Nat.and_le_right (n := swap m) (m := 7)
    simp only [decodeMode, dly_conv, List.length_cons, List.length_nil]
    omega

/-! ### Helper lemmas: the system-tick scheduler -/

theorem sysTick_scroll (speed dly : Nat) (p : Bool) (s : TickState) :
    ((sysTick speed dly p s).1).scroll_timer =
      if s.scroll_timer ≠ 0 then s.scroll_timer - 1 else speed := by
  by_cases h : s.scroll_timer ≠ 0 <;> simp [sysTick, h]

theorem sysTick_fired (speed dly : Nat) (p : Bool) (s : TickState) :
    (sysTick speed dly p s).2 = if s.scroll_timer ≠ 0 then false else true := by
  by_cases h : s.scroll_timer ≠ 0 <;> simp [sysTick, h]

theorem sysTick_button (speed dly : Nat) (p : Bool) (s : TickState) :
    ((sysTick speed dly p s).1).button = (buttonStep dly p s.button s.pb_timer).1 := rfl

theorem sysTick_pb_timer (speed dly : Nat) (p : Bool) (s : TickState) :
    ((sysTick speed dly p s).1).pb_timer = (buttonStep dly p s.button s.pb_timer).2 := rfl

theorem scrollFires_iff (speed : Nat) (s : TickState) (k : Nat) :
    scrollFires speed s k = true ↔ (tickIter speed s k).scroll_timer = 0 := by
  unfold scrollFires
  rw [sysTick_fired]
  by_cases h : (tickIter speed s k).scroll_timer = 0 <;> simp [h]

theorem tickIter_succ_timer (speed : Nat) (s : TickState) (k : Nat) :
    (tickIter speed s (k + 1)).scroll_timer =
      if (tickIter speed s k).scroll_timer ≠ 0
      then (tickIter speed s k).scroll_timer - 1 else speed :=
  sysTick_scroll speed 0 false (tickIter speed s k)

theorem tickIter_countdown (speed : Nat) (s : TickState) (k : Nat)
    (h0 : (tickIter speed s k).scroll_timer = 0) :
    ∀ i, i ≤ speed → (tickIter speed s (k + 1 + i)).scroll_timer = speed - i := by
  intro i
  induction i with
  | zero =>
    intro _
    rw [tickIter_succ_timer, h0]
    simp
  | succ j ih =>
    intro hle
    have hj := ih (by omega)
    have harr : k + 1 + (j + 1) = (k + 1 + j) + 1 := by omega
    rw [harr, tickIter_succ_timer, hj]
    have hne : speed - j ≠ 0 := by omega
    rw [if_pos hne]
    omega

/-- C8: per system tick, the scroll countdown is decremented while
non-zero (no scroll step), and on reaching zero it is reset to the
configured speed and exactly one scroll step is issued; consequently, with
the speed held constant, consecutive scroll steps are separated by exactly
speed + 1 system ticks. -/
theorem c8_scroll_cadence (speed : Nat) (s : TickState) (k : Nat) :
    ((tickIter speed s k).scroll_timer ≠ 0 →
      scrollFires speed s k = false ∧
      (tickIter speed s (k + 1)).scroll_timer = (tickIter speed s k).scroll_timer - 1) ∧
    ((tickIter speed s k).scroll_timer = 0 →
      scrollFires speed s k = true ∧
      (tickIter speed s (k + 1)).scroll_timer = speed) ∧
    (scrollFires speed s k = true →
      scrollFires speed s (k + speed + 1) = true ∧
      ∀ j, k < j → j < k + speed + 1 → scrollFires speed s j = false) := by
  refine ⟨?_, ?_, ?_⟩
  · intro h
    refine ⟨?_, ?_⟩
    · cases hb : scrollFires speed s k
      · rfl
      · exact absurd ((scrollFires_iff speed s k).mp hb) h
    · rw [tickIter_succ_timer, if_pos h]
  · intro h
    refine ⟨(scrollFires_iff speed s k).mpr h, ?_⟩
    rw [tickIter_succ_timer, h]
    simp
  · intro hf
    have h0 := (scrollFires_iff speed s k).mp hf
    refine ⟨?_, ?_⟩
    · apply (scrollFires_iff speed s (k + speed + 1)).mpr
      have hc := tickIter_countdown speed s k h0 speed (Nat.le_refl _)
      have harr : k + 1 + speed = k + speed + 1 := by omega
      rw [harr] at hc
      rw [hc]
      omega
    · intro j hkj hjk
      have hc := tickIter_countdown speed s k h0 (j - k - 1) (by omega)
      have harr : k + 1 + (j - k - 1) = j := by omega
      rw [harr] at hc
      cases hb : scrollFires speed s j
      · rfl
      · have hz := (scrollFires_iff speed s j).mp hb
        rw [hc] at hz
        omega

/-- Witness for C8 at speed 2, starting from a state whose countdown is 0:
that tick fires, the next firing tick is exactly 3 = 2 + 1 ticks later,
and the two ticks in between do not fire. -/
theorem c8_witness :
    scrollFires 2 ⟨0, 4, 0⟩ 3 = true ∧ scrollFires 2 ⟨0, 4, 0⟩ 1 = false ∧
    scrollFires 2 ⟨0, 4, 0⟩ 2 = false := by
  have h := (c8_scroll_cadence 2 ⟨0, 4, 0⟩ 0).2.2 (by decide)
  exact ⟨by simpa using h.1, h.2 1 (by decide) (by decide), h.2 2 (by decide) (by decide)⟩

/-! ### Helper lemmas: the push-button state machine -/

theorem buttonStep_press_idle (dly t b : Nat) (h : b &&& PB_PRESS = 0) :
    buttonStep dly true b t = (PB_PRESS, dly) := by
  simp [buttonStep, h]

theorem buttonStep_hold_tick (dly t : Nat) (h : t ≠ 0) :
    buttonStep dly true PB_PRESS t = (PB_PRESS, t - 1) := by
  simp [buttonStep, PB_PRESS, h]

theorem buttonStep_hold_zero (dly : Nat) :
    buttonStep dly true PB_PRESS 0 = (PB_LONGPRESS, 0) := by
  simp [buttonStep, PB_PRESS, PB_LONGPRESS]

theorem buttonStep_long_hold (dly t : Nat) :
    buttonStep dly true PB_LONGPRESS t = (PB_LONGPRESS, t) := by
  simp [buttonStep, PB_PRESS, PB_LONGPRESS]

theorem buttonStep_release (dly t b : Nat) (h : b &&& PB_PRESS ≠ 0) :
    buttonStep dly false b t = (b &&& (255 ^^^ (PB_PRESS ||| PB_ACK)), t) := by
  simp [buttonStep, h]

theorem buttonStep_idle_nop (dly t b : Nat) (h : b &&& PB_PRESS = 0) :
    buttonStep dly false b t = (b, t) := by
  simp [buttonStep, h]

theorem buttonTrace_cons (speed dly : Nat) (s : TickState) (p : Bool) (ps : List Bool) :
    buttonTrace speed dly s (p :: ps) =
      ((sysTick speed dly p s).1).button ::
        buttonTrace speed dly (sysTick speed dly p s).1 ps := rfl

theorem runTicks_cons (speed dly : Nat) (s : TickState) (p : Bool) (ps : List Bool) :
    runTicks speed dly s (p :: ps) = runTicks speed dly (sysTick speed dly p s).1 ps := rfl

theorem buttonTrace_append (speed dly : Nat) (s : TickState) (xs ys : List Bool) :
    buttonTrace speed dly s (xs ++ ys) =
      buttonTrace speed dly s xs ++
        buttonTrace speed dly (runTicks speed dly s xs) ys := by
  induction xs generalizing s with
  | nil => simp [buttonTrace, runTicks]
  | cons p ps ih =>
    rw [List.cons_append, buttonTrace_cons, buttonTrace_cons, runTicks_cons, ih,
      List.cons_append]

theorem buttonTrace_long_hold (speed dly k : Nat) :
    ∀ s : TickState, s.button = PB_LONGPRESS →
      buttonTrace speed dly s (List.replicate k true) =
        List.replicate k PB_LONGPRESS ∧
      (runTicks speed dly s (List.replicate k true)).button = PB_LONGPRESS := by
  induction k with
  | zero =>
    intro s hb
    exact ⟨rfl, hb⟩
  | succ n ih =>
    intro s hb
    have hstep : ((sysTick speed dly true s).1).button = PB_LONGPRESS := by
      rw [sysTick_button, hb, buttonStep_long_hold]
    have hih := ih (sysTick speed dly true s).1 hstep
    refine ⟨?_, ?_⟩
    · rw [List.replicate_succ, buttonTrace_cons, hstep, hih.1, List.replicate_succ]
    · rw [List.replicate_succ, runTicks_cons]
      exact hih.2

theorem buttonTrace_hold (speed dly k : Nat) :
    ∀ s : TickState, s.button = PB_PRESS →
      buttonTrace speed dly s (List.replicate k true) =
        List.replicate (min k s.pb_timer) PB_PRESS ++
          List.replicate (k - s.pb_timer) PB_LONGPRESS ∧
      (runTicks speed dly s (List.replicate k true)).button =
        (if k ≤ s.pb_timer then PB_PRESS else PB_LONGPRESS) := by
  induction k with
  | zero =>
    intro s hb
    simp [buttonTrace, runTicks, hb]
  | succ n ih =>
    intro s hb
    by_cases ht : s.pb_timer = 0
    · have hstep : ((sysTick speed dly true s).1).button = PB_LONGPRESS := by
        rw [sysTick_button, hb, ht, buttonStep_hold_zero]
      have hl := buttonTrace_long_hold speed dly n (sysTick speed dly true s).1 hstep
      refine ⟨?_, ?_⟩
      · rw [List.replicate_succ, buttonTrace_cons, hstep, hl.1, ht]
        simp [List.replicate_succ]
      · rw [List.replicate_succ, runTicks_cons, hl.2, ht, if_neg (by omega)]
    · have hstep : ((sysTick speed dly true s).1).button = PB_PRESS := by
        rw [sysTick_button, hb, buttonStep_hold_tick dly s.pb_timer ht]
      have htm : ((sysTick speed dly true s).1).pb_timer = s.pb_timer - 1 := by
        rw [sysTick_pb_timer, hb, buttonStep_hold_tick dly s.pb_timer ht]
      have hih := ih (sysTick speed dly true s).1 hstep
      rw [htm] at hih
      refine ⟨?_, ?_⟩
      · rw [List.replicate_succ, buttonTrace_cons, hstep, hih.1]
        have h1 : min (n + 1) s.pb_timer = min n (s.pb_timer - 1) + 1 := by omega
        have h2 : n + 1 - s.pb_timer = n - (s.pb_timer - 1) := by omega
        rw [h1, h2, List.replicate_succ, List.cons_append]
      · rw [List.replicate_succ, runTicks_cons, hih.2]
        by_cases hc : n + 1 ≤ s.pb_timer
        · rw [if_pos (by omega), if_pos hc]
        · rw [if_neg (by omega), if_neg hc]

theorem buttonTrace_idle (speed dly k : Nat) :
    ∀ s : TickState, s.button &&& PB_PRESS = 0 →
      buttonTrace speed dly s (List.replicate k false) =
        List.replicate k s.button ∧
      (runTicks speed dly s (List.replicate k false)).button = s.button := by
  induction k with
  | zero =>
    intro s hb
    exact ⟨rfl, rfl⟩
  | succ n ih =>
    intro s hb
    have hstep : ((sysTick speed dly false s).1).button = s.button := by
      rw [sysTick_button, buttonStep_idle_nop dly s.pb_timer s.button hb]
    have hih := ih (sysTick speed dly false s).1 (by rw [hstep]; exact hb)
    rw [hstep] at hih
    refine ⟨?_, ?_⟩
    · rw [List.replicate_succ, buttonTrace_cons, hstep, hih.1, List.replicate_succ]
    · rw [List.replicate_succ, runTicks_cons]
      exact hih.2

theorem issuedCount_cons (e b0 b : Nat) (bs : List Nat) :
    issuedCount e b0 (b :: bs) =
      (if b = e ∧ b0 ≠ e then 1 else 0) + issuedCount e b bs := rfl

theorem issuedCount_replicate (e : Nat) (n : Nat) (b0 c : Nat) :
    issuedCount e b0 (List.replicate n c) =
      if 1 ≤ n ∧ c = e ∧ b0 ≠ e then 1 else 0 := by
  induction n generalizing b0 with
  | zero => simp [issuedCount]
  | succ m ih =>
    rw [List.replicate_succ, issuedCount_cons, ih c]
    by_cases h1 : c = e <;> by_cases h2 : b0 = e <;> simp [h1, h2]

theorem issuedCount_replicate_append (e : Nat) (n : Nat) (b0 c : Nat) (l : List Nat) :
    issuedCount e b0 (List.replicate n c ++ l) =
      issuedCount e b0 (List.replicate n c) +
        issuedCount e (if n = 0 then b0 else c) l := by
  induction n generalizing b0 with
  | zero => simp [issuedCount]
  | succ m ih =>
    rw [List.replicate_succ, List.cons_append, issuedCount_cons, ih c,
      issuedCount_cons]
    simp only [ite_self, if_neg (Nat.succ_ne_zero m)]
    omega

/-- C1 (amended): for the button state machine run once per system tick,
starting from the idle/acknowledged state, a synthetic sequence of N ≥ 1
"pressed" samples followed by M ≥ 1 "not pressed" samples issues the
long-pressed event exactly once if and only if N exceeds
PB_LONGPRESS_DELAY + 1 (one tick arms the timer, PB_LONGPRESS_DELAY ticks
count it down, one more tick observes it elapsed), issues the released
event exactly once if and only if N ≤ PB_LONGPRESS_DELAY + 1, and never
issues the other event — exactly one unacknowledged event per physical
press. -/
theorem c1_button_classification (speed dly N M st t0 : Nat)
    (hN : 1 ≤ N) (hM : 1 ≤ M) :
    issuedCount PB_LONGPRESS PB_ACK
        (buttonTrace speed dly ⟨st, PB_ACK, t0⟩
          (List.replicate N true ++ List.replicate M false)) =
      (if dly + 2 ≤ N then 1 else 0) ∧
    issuedCount PB_RELEASE PB_ACK
        (buttonTrace speed dly ⟨st, PB_ACK, t0⟩
          (List.replicate N true ++ List.replicate M false)) =
      (if N ≤ dly + 1 then 1 else 0) := by
  obtain ⟨n, rfl⟩ : ∃ n, N = n + 1 := ⟨N - 1, by omega⟩
  obtain ⟨m, rfl⟩ : ∃ m, M = m + 1 := ⟨M - 1, by omega⟩
  have hbs1 : buttonStep dly true PB_ACK t0 = (PB_PRESS, dly) :=
    buttonStep_press_idle dly t0 PB_ACK (by decide)
  set s1 : TickState := (sysTick speed dly true ⟨st, PB_ACK, t0⟩).1 with hs1
  have hstep1b : s1.button = PB_PRESS := by
    rw [hs1, sysTick_button]
    show (buttonStep dly true PB_ACK t0).1 = PB_PRESS
    rw [hbs1]
  have hstep1t : s1.pb_timer = dly := by
    rw [hs1, sysTick_pb_timer]
    show (buttonStep dly true PB_ACK t0).2 = dly
    rw [hbs1]
  set s2 : TickState := runTicks speed dly s1 (List.replicate n true) with hs2
  have hpress := buttonTrace_hold speed dly n s1 hstep1b
  rw [hstep1t, ← hs2] at hpress
  have htr0 : buttonTrace speed dly ⟨st, PB_ACK, t0⟩
      (List.replicate (n + 1) true ++ List.replicate (m + 1) false) =
      PB_PRESS :: buttonTrace speed dly s1
        (List.replicate n true ++ List.replicate (m + 1) false) := by
    rw [List.replicate_succ, List.cons_append, buttonTrace_cons, ← hs1, hstep1b]
  rw [htr0, buttonTrace_append, hpress.1, ← hs2]
  set s3 : TickState := (sysTick speed dly false s2).1 with hs3
  by_cases hrel : n ≤ dly
  · have hs2b : s2.button = PB_PRESS := by
      rw [hpress.2, if_pos hrel]
    have hs3b : s3.button = PB_RELEASE := by
      rw [hs3, sysTick_button, hs2b, buttonStep_release dly _ PB_PRESS (by decide)]
      exact (by decide : PB_PRESS &&& (255 ^^^ (PB_PRESS ||| PB_ACK)) = PB_RELEASE)
    have hidle := buttonTrace_idle speed dly m s3 (by rw [hs3b]; decide)
    rw [hs3b] at hidle
    have hfalse : buttonTrace speed dly s2 (List.replicate (m + 1) false) =
        PB_RELEASE :: List.replicate m PB_RELEASE := by
      rw [List.replicate_succ, buttonTrace_cons, ← hs3, hs3b, hidle.1]
    rw [hfalse, Nat.min_eq_left hrel, Nat.sub_eq_zero_of_le hrel]
    simp only [List.replicate_zero, List.append_nil]
    have hshape : PB_PRESS :: (List.replicate n PB_PRESS ++
        (PB_RELEASE :: List.replicate m PB_RELEASE)) =
        List.replicate (n + 1) PB_PRESS ++ List.replicate (m + 1) PB_RELEASE := by
      simp [List.replicate_succ, List.cons_append]
    rw [hshape]
    constructor
    · rw [issuedCount_replicate_append]
      simp only [issuedCount_replicate]
      rw [if_neg (show ¬ (dly + 2 ≤ n + 1) by omega)]
      simp [PB_PRESS, PB_LONGPRESS, PB_RELEASE, PB_ACK]
    · rw [issuedCount_replicate_append]
      simp only [issuedCount_replicate]
      rw [if_pos (show n + 1 ≤ dly + 1 by omega)]
      simp [PB_PRESS, PB_LONGPRESS, PB_RELEASE, PB_ACK, Nat.le_add_left]
  · have hs2b : s2.button = PB_LONGPRESS := by
      rw [hpress.2, if_neg hrel]
    have hs3b : s3.button = 2 := by
      rw [hs3, sysTick_button, hs2b, buttonStep_release dly _ PB_LONGPRESS (by decide)]
      exact (by decide : PB_LONGPRESS &&& (255 ^^^ (PB_PRESS ||| PB_ACK)) = 2)
    have hidle := buttonTrace_idle speed dly m s3 (by rw [hs3b]; decide)
    rw [hs3b] at hidle
    have hfalse : buttonTrace speed dly s2 (List.replicate (m + 1) false) =
        2 :: List.replicate m 2 := by
      rw [List.replicate_succ, buttonTrace_cons, ← hs3, hs3b, hidle.1]
    rw [hfalse, Nat.min_eq_right (show dly ≤ n by omega)]
    have hshape : PB_PRESS :: ((List.replicate dly PB_PRESS ++
        List.replicate (n - dly) PB_LONGPRESS) ++ (2 :: List.replicate m 2)) =
        List.replicate (dly + 1) PB_PRESS ++ (List.replicate (n - dly) PB_LONGPRESS ++
          List.replicate (m + 1) 2) := by
      simp [List.replicate_succ, List.cons_append, List.append_assoc]
    rw [hshape]
    constructor
    · rw [issuedCount_replicate_append, issuedCount_replicate_append]
      simp only [issuedCount_replicate]
      rw [if_pos (show dly + 2 ≤ n + 1 by omega)]
      simp [PB_PRESS, PB_LONGPRESS, PB_RELEASE, PB_ACK, Nat.le_add_left,
        show n - dly ≠ 0 by omega, show (1 : Nat) ≤ n - dly by omega,
        Nat.succ_ne_zero]
    · rw [issuedCount_replicate_append, issuedCount_replicate_append]
      simp only [issuedCount_replicate]
      rw [if_neg (show ¬ (n + 1 ≤ dly + 1) by omega)]
      simp [PB_PRESS, PB_LONGPRESS, PB_RELEASE, PB_ACK]

/-- Counterexample to C1 as frozen: with PB_LONGPRESS_DELAY = 0, a single
pressed sample (N = 1 > 0 = delay) followed by one release sample issues
the released event, not the long-pressed event the claim requires for
N exceeding the delay. -/
theorem c1_counterexample :
    (0 : Nat) < 1 ∧
    issuedCount PB_LONGPRESS PB_ACK
      (buttonTrace 0 0 ⟨0, PB_ACK, 0⟩ [true, false]) = 0 ∧
    issuedCount PB_RELEASE PB_ACK
      (buttonTrace 0 0 ⟨0, PB_ACK, 0⟩ [true, false]) = 1 := by
  decide

/-- Witness for C1 with delay 1: four pressed samples (4 ≥ 1 + 2) then two
released samples issue exactly one long-press and no release; two pressed
samples (2 ≤ 1 + 1) then two released samples issue exactly one release
and no long-press. -/
theorem c1_witness :
    issuedCount PB_LONGPRESS PB_ACK
      (buttonTrace 0 1 ⟨0, PB_ACK, 0⟩
        (List.replicate 4 true ++ List.replicate 2 false)) = 1 ∧
    issuedCount PB_RELEASE PB_ACK
      (buttonTrace 0 1 ⟨0, PB_ACK, 0⟩
        (List.replicate 4 true ++ List.replicate 2 false)) = 0 ∧
    issuedCount PB_LONGPRESS PB_ACK
      (buttonTrace 0 1 ⟨0, PB_ACK, 0⟩
        (List.replicate 2 true ++ List.replicate 2 false)) = 0 ∧
    issuedCount PB_RELEASE PB_ACK
      (buttonTrace 0 1 ⟨0, PB_ACK, 0⟩
        (List.replicate 2 true ++ List.replicate 2 false)) = 1 := by
  have h1 := c1_button_classification 0 1 4 2 0 0 (by decide) (by decide)
  have h2 := c1_button_classification 0 1 2 2 0 0 (by decide) (by decide)
  norm_num at h1 h2
  exact ⟨h1.1, h1.2, h2.1, h2.2⟩

end DMShield
